import Mathlib

/-!
Verification of the FactoryPocketGlobal exchange-rate acquisition and audit
pipeline (src/Backend/scraper.py and src/Backend/audit_rates.py).

The embedding uses exact rationals for the Python floats, explicit lists of
pairs for the Python dicts (dicts preserve insertion order and have distinct
keys), and explicit parameters for the external capabilities (the yfinance
quote provider, the ECB reference feed, file existence and wall-clock age).
Python `round(x, n)` is modelled as rounding `x * 10^n` to the nearest
integer; none of the verified facts depends on tie-breaking behaviour.
Print-formatting details of check messages are abstracted to fixed strings;
check names, statuses and the recorded per-currency data are modelled exactly.
-/

namespace FPG

/-- Check/report status, the string values "PASS" / "WARNING" / "CRITICAL"
used throughout audit_rates.py. -/
inductive Status where
  | PASS
  | WARNING
  | CRITICAL
deriving DecidableEq, Repr

def Status.isCritical : Status → Bool
  | .CRITICAL => true
  | _ => false

def Status.isWarning : Status → Bool
  | .WARNING => true
  | _ => false

/-- One entry of the checks list of the report (audit_rates.py, add_check). -/
structure Check where
  check : String
  status : Status
  detail : String
deriving DecidableEq, Repr

/-- The mutable state threaded through run_audit: the accumulated checks
list, the `critical` flag and the `warnings` counter (audit_rates.py,
lines 125-134). -/
structure AuditState where
  checks : List Check
  critical : Bool
  warnings : Nat
deriving Repr

def AuditState.start : AuditState := ⟨[], false, 0⟩

/-- audit_rates.py `add_check`: append the check and update the severity
accumulators. -/
def add_check (s : AuditState) (name : String) (st : Status) (detail : String) : AuditState :=
  { checks := s.checks ++ [⟨name, st, detail⟩]
    critical := if st = Status.CRITICAL then true else s.critical
    warnings := if st = Status.WARNING then s.warnings + 1 else s.warnings }

/-- Dict lookup on a rate mapping (Python `dict.get`). -/
def getRate : List (String × ℚ) → String → Option ℚ
  | [], _ => none
  | p :: rest, c => if p.1 = c then some p.2 else getRate rest c

/-- Dict lookup on the bounds table. -/
def getBounds : List (String × ℚ × ℚ) → String → Option (ℚ × ℚ)
  | [], _ => none
  | p :: rest, c => if p.1 = c then some p.2 else getBounds rest c

/-- Python `round(x, n)` over exact rationals. -/
def roundTo (n : ℕ) (x : ℚ) : ℚ := (round (x * 10 ^ n) : ℤ) / 10 ^ n

-- Constants of audit_rates.py.
def MIN_RATES : ℕ := 15
def MAX_AGE_HOURS : ℚ := 6
def WARN_DEVIATION_PCT : ℚ := 3
def CRITICAL_DEVIATION_PCT : ℚ := 10

/-- RATE_BOUNDS: the per-currency sanity ranges.  The same table appears
identically in scraper.py (lines 122-156) and audit_rates.py (lines 37-49). -/
def RATE_BOUNDS : List (String × ℚ × ℚ) :=
  [("EUR", 0.50, 1.50), ("GBP", 0.40, 1.30), ("JPY", 70, 250),
   ("CAD", 0.90, 2.00), ("AUD", 0.90, 2.20), ("CNY", 4.0, 10.0),
   ("CHF", 0.50, 1.50), ("HKD", 5.0, 10.0), ("SGD", 0.80, 2.00),
   ("SEK", 5.0, 16.0), ("KRW", 700, 2000), ("NOK", 5.0, 16.0),
   ("NZD", 0.90, 2.50), ("INR", 50, 130), ("MXN", 10, 30),
   ("TWD", 20, 45), ("ZAR", 10, 30), ("BRL", 3.0, 8.0),
   ("DKK", 4.0, 10.0), ("PLN", 2.5, 6.0), ("THB", 20, 50),
   ("IDR", 10000, 22000), ("HUF", 200, 550), ("CZK", 15, 35),
   ("ILS", 2.5, 5.5), ("CLP", 500, 1400), ("PHP", 35, 75),
   ("AED", 3.0, 4.5), ("COP", 2500, 6000), ("SAR", 3.0, 4.5),
   ("MYR", 3.0, 7.0), ("RON", 3.0, 7.0), ("MAD", 7.0, 14.0)]

/-- REQUIRED_CURRENCIES (audit_rates.py line 52). -/
def REQUIRED_CURRENCIES : List String :=
  ["EUR", "GBP", "JPY", "CNY", "CHF", "CAD", "MAD"]

/-- Python `abs` on rationals, written out so that it evaluates. -/
def qabs (x : ℚ) : ℚ := if x < 0 then -x else x

/-- Deviation percentage against the reference rate
(audit_rates.py line 226, scraper.py line 377). -/
def deviation (scraped ref : ℚ) : ℚ := qabs (scraped - ref) / ref * 100

/-- The deviation computed by the audit cross-check loop for one stored
rate, when the loop computes one at all: USD is skipped, and the reference
entry must be present and positive (audit_rates.py lines 221-226). -/
def crossDev (ecb : List (String × ℚ)) (code : String) (rate : ℚ) : Option ℚ :=
  if code = "USD" then none else
  match getRate ecb code with
  | some e => if 0 < e then some (deviation rate e) else none
  | none => none

/-- Codes appended to `cross_errors` (deviation above the critical
threshold, audit_rates.py lines 230-231). -/
def crossErrors (rates ecb : List (String × ℚ)) : List String :=
  rates.filterMap fun p =>
    match crossDev ecb p.1 p.2 with
    | some dev => if CRITICAL_DEVIATION_PCT < dev then some p.1 else none
    | none => none

/-- Codes appended to `cross_warnings` (deviation above the warning
threshold but not the critical one, audit_rates.py lines 232-233). -/
def crossWarnings (rates ecb : List (String × ℚ)) : List String :=
  rates.filterMap fun p =>
    match crossDev ecb p.1 p.2 with
    | some dev =>
      if CRITICAL_DEVIATION_PCT < dev then none
      else if WARN_DEVIATION_PCT < dev then some p.1 else none
    | none => none

/-- Codes collected in `bounds_violations` by the audit bounds loop
(audit_rates.py lines 191-199): USD is skipped, codes outside their
[lo, hi] range are recorded, codes without bounds are never violations. -/
def boundsViolations (rates : List (String × ℚ)) : List String :=
  rates.filterMap fun p =>
    if p.1 = "USD" then none else
    match getBounds RATE_BOUNDS p.1 with
    | some (lo, hi) => if lo ≤ p.2 ∧ p.2 ≤ hi then none else some p.1
    | none => none

/-- One entry of the details_per_currency mapping of the report. -/
structure CurrencyDetail where
  rate : ℚ
  bounds_status : String
  bounds : Option (ℚ × ℚ)
  ecb_rate : Option ℚ
  ecb_deviation_pct : Option ℚ
deriving DecidableEq, Repr

/-- The detail entry written by the audit bounds loop for one non-USD rate
(audit_rates.py lines 195-206). -/
def boundsDetail (code : String) (rate : ℚ) : CurrencyDetail :=
  match getBounds RATE_BOUNDS code with
  | some (lo, hi) =>
    if lo ≤ rate ∧ rate ≤ hi then ⟨rate, "PASS", none, none, none⟩
    else ⟨rate, "FAIL", some (lo, hi), none, none⟩
  | none => ⟨rate, "NO_BOUNDS", none, none, none⟩

/-- The details_per_currency mapping after the bounds loop: one entry per
non-USD stored rate, in iteration order. -/
def boundsDetails (rates : List (String × ℚ)) : List (String × CurrencyDetail) :=
  rates.filterMap fun p =>
    if p.1 = "USD" then none else some (p.1, boundsDetail p.1 p.2)

/-- The update applied to one detail entry by the audit cross-check loop
(audit_rates.py lines 227-229): when a positive reference rate exists for
the code, record the reference rate (4 dp) and the deviation (2 dp). -/
def withEcb (ecb : List (String × ℚ)) (p : String × CurrencyDetail) : String × CurrencyDetail :=
  match getRate ecb p.1 with
  | some e =>
    if 0 < e then
      (p.1, { p.2 with ecb_rate := some (roundTo 4 e)
                       ecb_deviation_pct := some (roundTo 2 (deviation p.2.rate e)) })
    else p
  | none => p

/-- details_per_currency in the emitted report: the bounds-loop entries,
enriched by the cross-check loop when ECB data is available. -/
def auditDetails (rates ecb : List (String × ℚ)) : List (String × CurrencyDetail) :=
  if ecb = [] then boundsDetails rates
  else (boundsDetails rates).map (withEcb ecb)

/-- Required currencies missing from the rate mapping
(audit_rates.py line 183). -/
def missingRequired (rates : List (String × ℚ)) : List String :=
  REQUIRED_CURRENCIES.filter fun c => (getRate rates c).isNone

-- Status computed by each audit check (the branch taken by the
-- corresponding add_check call in audit_rates.py).

def freshnessStatus : Option ℚ → Status
  | none => .CRITICAL
  | some age => if MAX_AGE_HOURS < age then .WARNING else .PASS

def minCountStatus (n : ℕ) : Status :=
  if n < MIN_RATES then .CRITICAL else .PASS

def usdBaseStatus (rates : List (String × ℚ)) : Status :=
  if getRate rates "USD" = some 1 then .PASS else .CRITICAL

def requiredStatus (rates : List (String × ℚ)) : Status :=
  if missingRequired rates = [] then .PASS else .WARNING

def boundsStatus (rates : List (String × ℚ)) : Status :=
  if boundsViolations rates = [] then .PASS else .WARNING

/-- Status of the ecb_cross_check check (audit_rates.py lines 215-243):
WARNING when the reference set is empty, else CRITICAL / WARNING / PASS by
the elif ladder over cross_errors and cross_warnings. -/
def ecbStatus (rates ecb : List (String × ℚ)) : Status :=
  if ecb = [] then .WARNING
  else if crossErrors rates ecb = [] then
    (if crossWarnings rates ecb = [] then .PASS else .WARNING)
  else .CRITICAL

def freshnessStep (age : Option ℚ) (s : AuditState) : AuditState :=
  add_check s "freshness" (freshnessStatus age) ""

def minCountStep (n : ℕ) (s : AuditState) : AuditState :=
  add_check s "minimum_count" (minCountStatus n) ""

def usdBaseStep (rates : List (String × ℚ)) (s : AuditState) : AuditState :=
  add_check s "usd_base" (usdBaseStatus rates) ""

def requiredStep (rates : List (String × ℚ)) (s : AuditState) : AuditState :=
  add_check s "required_currencies" (requiredStatus rates) ""

def boundsStep (rates : List (String × ℚ)) (s : AuditState) : AuditState :=
  add_check s "bounds_validation" (boundsStatus rates) ""

def ecbStep (rates ecb : List (String × ℚ)) (s : AuditState) : AuditState :=
  add_check s "ecb_cross_check" (ecbStatus rates ecb) ""

/-- Acquisition audit metadata carried by the dataset
(the `exchanger_audit` block read back by audit_rates.py lines 246-258). -/
structure BoundsReject where
  code : String
  rate : ℚ
  lo : ℚ
  hi : ℚ
deriving DecidableEq, Repr

structure ScraperMeta where
  fetch_failed : List String
  bounds_rejected : List BoundsReject
deriving DecidableEq, Repr

/-- Step 9 of run_audit (audit_rates.py lines 246-258).  `none` models an
absent or empty (hence falsy) exchanger_audit block. -/
def scraperStep (meta : Option ScraperMeta) (s : AuditState) : AuditState :=
  match meta with
  | none => s
  | some m =>
    let s := if m.fetch_failed = [] then s
             else add_check s "scraper_failures" .WARNING ""
    let s := if m.bounds_rejected = [] then s
             else add_check s "scraper_bounds_rejected" .WARNING ""
    if m.fetch_failed = [] ∧ m.bounds_rejected = [] then
      add_check s "scraper_audit" .PASS ""
    else s

/-- The persisted market_data.json as seen by run_audit.  `age` is the
parsed age of last_update in hours (`none` = unparsable); file existence is
modelled by `Option MarketData` at the run_audit call. -/
structure MarketData where
  age : Option ℚ
  rates : List (String × ℚ)
  audit : Option ScraperMeta
deriving Repr

structure Summary where
  total_rates : ℕ
  bounds_violations : ℕ
  warnings : ℕ
  critical : Bool
deriving DecidableEq, Repr

/-- The audit report (audit_rates.py lines 117-123 and 260-268).  `summary`
is `none` on the two short-circuit paths, where the initial empty dict is
emitted. -/
structure Report where
  status : Status
  checks : List Check
  summary : Option Summary
  details_per_currency : List (String × CurrencyDetail)
deriving Repr

/-- audit_rates.py `run_audit`.  `data` is the loaded dataset (`none` =
market_data.json missing) and `ecb` the USD-based reference set returned by
fetch_ecb_rates (empty on any fetch failure). -/
def run_audit (data : Option MarketData) (ecb : List (String × ℚ)) : Report :=
  match data with
  | none =>
    { status := .CRITICAL
      checks := (add_check .start "file_exists" .CRITICAL "market_data.json not found").checks
      summary := none
      details_per_currency := [] }
  | some d =>
    let s := add_check .start "file_exists" .PASS ""
    let s := freshnessStep d.age s
    if d.rates = [] then
      { status := .CRITICAL
        checks := (add_check s "rates_present" .CRITICAL "No rates block in market_data.json").checks
        summary := none
        details_per_currency := [] }
    else
      let s := add_check s "rates_present" .PASS ""
      let s := minCountStep d.rates.length s
      let s := usdBaseStep d.rates s
      let s := requiredStep d.rates s
      let s := boundsStep d.rates s
      let s := ecbStep d.rates ecb s
      let s := scraperStep d.audit s
      { status := if s.critical then .CRITICAL
                  else if 0 < s.warnings then .WARNING else .PASS
        checks := s.checks
        summary := some ⟨d.rates.length, (boundsViolations d.rates).length, s.warnings, s.critical⟩
        details_per_currency := auditDetails d.rates ecb }

/-- Modelled from the spec: the aggregation rule as the specification words
it — "overall status = CRITICAL if any check is CRITICAL; else WARNING if
any check is WARNING; else PASS".  Compared in the C1 theorem against the
accumulator-based status of run_audit. -/
def specOverallStatus (checks : List Check) : Status :=
  if checks.any (fun c => c.status.isCritical) then .CRITICAL
  else if checks.any (fun c => c.status.isWarning) then .WARNING
  else .PASS

/-- First check with the given name in a checks list (check names are used
at most once per run). -/
def findCheck : List Check → String → Option Status
  | [], _ => none
  | c :: rest, name => if c.check = name then some c.status else findCheck rest name

/-!
Scraper side: src/Backend/scraper.py.  The yfinance provider is modelled as
a function from attempt number to attempt outcome; an outcome is an empty
download, a raised exception, or a latest close price.
-/

/-- Outcome of one yf.download attempt in the exchanger loop
(scraper.py lines 316-342). -/
inductive Attempt where
  | empty
  | exc
  | price (p : ℚ)
deriving DecidableEq, Repr

def MAX_RETRIES : ℕ := 3
def RETRY_DELAY : ℚ := 2

/-- The exchanger retry loop body (scraper.py lines 314-342), over the list
of remaining attempt outcomes.  Returns the fetched price (None if every
attempt failed) together with the trace of time.sleep delays.  An empty
download or an exception sleeps the current delay and doubles it — except
on the last attempt; a non-positive price resets price to None and
continues immediately (no sleep, delay unchanged); a positive price breaks
out of the loop. -/
def retryLoop : List Attempt → ℚ → Option ℚ × List ℚ
  | [], _ => (none, [])
  | .price p :: rest, delay =>
    if 0 < p then (some p, []) else retryLoop rest delay
  | .empty :: rest, delay =>
    if rest = [] then (none, [])
    else
      let r := retryLoop rest (delay * 2)
      (r.1, delay :: r.2)
  | .exc :: rest, delay =>
    if rest = [] then (none, [])
    else
      let r := retryLoop rest (delay * 2)
      (r.1, delay :: r.2)

/-- Price obtained for one symbol by the exchanger loop: MAX_RETRIES
attempts starting at RETRY_DELAY. -/
def fetchPrice (f : ℕ → Attempt) : Option ℚ × List ℚ :=
  retryLoop ((List.range MAX_RETRIES).map f) RETRY_DELAY

/-- Outcome of one yf.download attempt inside fetch_with_retry
(scraper.py lines 193-220): fewer than 2 rows, an exception, or the two
most recent closes. -/
inductive QuoteAttempt where
  | fewRows
  | exc
  | rows (latest prev : ℚ)
deriving DecidableEq, Repr

/-- scraper.py `fetch_with_retry` (lines 193-220) over the list of
remaining attempt outcomes, with the sleep-delay trace.  Fewer than 2 rows
or a non-positive close returns None immediately (no retry); only an
exception sleeps and retries with a doubled delay. -/
def fetch_with_retry : List QuoteAttempt → ℚ → Option (ℚ × ℚ) × List ℚ
  | [], _ => (none, [])
  | .fewRows :: _, _ => (none, [])
  | .rows latest prev :: _, _ =>
    if 0 < latest ∧ 0 < prev then
      (some (roundTo 4 latest, roundTo 2 ((latest - prev) / prev * 100)), [])
    else (none, [])
  | .exc :: rest, delay =>
    if rest = [] then (none, [])
    else
      let r := fetch_with_retry rest (delay * 2)
      (r.1, delay :: r.2)

/-- The doubling sleep schedule starting at delay d: d, 2d, 4d, ... -/
def geomSleeps (d : ℚ) : ℕ → List ℚ
  | 0 => []
  | k + 1 => d :: geomSleeps (d * 2) k

/-- EXCHANGER_PAIRS (scraper.py lines 82-117): code, ticker, invert. -/
def EXCHANGER_PAIRS : List (String × String × Bool) :=
  [("USD", "USD", false),
   ("EUR", "EURUSD=X", true), ("GBP", "GBPUSD=X", true),
   ("JPY", "USDJPY=X", false), ("CAD", "USDCAD=X", false),
   ("AUD", "AUDUSD=X", true), ("CNY", "USDCNY=X", false),
   ("CHF", "USDCHF=X", false), ("HKD", "USDHKD=X", false),
   ("SGD", "USDSGD=X", false), ("SEK", "USDSEK=X", false),
   ("KRW", "USDKRW=X", false), ("NOK", "USDNOK=X", false),
   ("NZD", "NZDUSD=X", true), ("INR", "USDINR=X", false),
   ("MXN", "USDMXN=X", false), ("TWD", "USDTWD=X", false),
   ("ZAR", "USDZAR=X", false), ("BRL", "USDBRL=X", false),
   ("DKK", "USDDKK=X", false), ("PLN", "USDPLN=X", false),
   ("THB", "USDTHB=X", false), ("IDR", "USDIDR=X", false),
   ("HUF", "USDHUF=X", false), ("CZK", "USDCZK=X", false),
   ("ILS", "USDILS=X", false), ("CLP", "USDCLP=X", false),
   ("PHP", "USDPHP=X", false), ("AED", "USDAED=X", false),
   ("COP", "USDCOP=X", false), ("SAR", "USDSAR=X", false),
   ("MYR", "USDMYR=X", false), ("RON", "USDRON=X", false),
   ("MAD", "USDMAD=X", false)]

/-- USD-based rate before bounds validation (scraper.py lines 352-353):
invert or not, then round to 6 decimal places. -/
def normalizeRate (invert : Bool) (price : ℚ) : ℚ :=
  roundTo 6 (if invert then 1 / price else price)

/-- The acquisition audit metadata built by fetch_exchanger_rates
(scraper.py lines 299-307).  cross_check_deviations entries are
(code, scraped, ecb rounded to 4 dp, deviation rounded to 2 dp). -/
structure ScrAudit where
  total_requested : ℕ
  fetched : ℕ
  validated : ℕ
  bounds_rejected : List BoundsReject
  fetch_failed : List String
  cross_check_deviations : List (String × ℚ × ℚ × ℚ)
deriving DecidableEq, Repr

/-- Body of the per-currency loop of fetch_exchanger_rates
(scraper.py lines 309-367): fetch with retry, normalize, bounds-validate,
then admit to the rate mapping or record the rejection/failure.  The
black-box provider is `f`: attempt outcomes per currency code. -/
def exchStep (f : String → ℕ → Attempt) (acc : List (String × ℚ) × ScrAudit)
    (e : String × String × Bool) : List (String × ℚ) × ScrAudit :=
  if e.1 = "USD" then acc else
  match (fetchPrice (f e.1)).1 with
  | none => (acc.1, { acc.2 with fetch_failed := acc.2.fetch_failed ++ [e.1] })
  | some price =>
    let a1 : ScrAudit := { acc.2 with fetched := acc.2.fetched + 1 }
    let final_rate := normalizeRate e.2.2 price
    match getBounds RATE_BOUNDS e.1 with
    | some (lo, hi) =>
      if lo ≤ final_rate ∧ final_rate ≤ hi then
        (acc.1 ++ [(e.1, roundTo 4 final_rate)], { a1 with validated := a1.validated + 1 })
      else
        (acc.1, { a1 with bounds_rejected := a1.bounds_rejected ++ [⟨e.1, final_rate, lo, hi⟩] })
    | none =>
      (acc.1 ++ [(e.1, roundTo 4 final_rate)], { a1 with validated := a1.validated + 1 })

/-- The acquisition-time cross-check record for one stored rate
(scraper.py lines 372-386): skip USD, require a positive reference entry,
record the deviation when above 2%, and flag (print) a critical
observation when strictly above 15%. -/
def acqCross (ecb : List (String × ℚ)) (p : String × ℚ) :
    Option ((String × ℚ × ℚ × ℚ) × Bool) :=
  if p.1 = "USD" then none else
  match getRate ecb p.1 with
  | some e =>
    if 0 < e then
      let dev := deviation p.2 e
      if 2 < dev then
        some ((p.1, p.2, roundTo 4 e, roundTo 2 dev), if 15 < dev then true else false)
      else none
    else none
  | none => none

/-- cross_check_deviations recorded at acquisition time (empty when the
reference fetch failed, scraper.py lines 370-383). -/
def acqDeviations (rates ecb : List (String × ℚ)) : List (String × ℚ × ℚ × ℚ) :=
  if ecb = [] then [] else rates.filterMap fun p => (acqCross ecb p).map (fun q => q.1)

/-- Codes for which the acquisition loop prints the CRITICAL-deviation
observation (scraper.py lines 384-386). -/
def acqCriticalLogged (rates ecb : List (String × ℚ)) : List String :=
  if ecb = [] then [] else
  rates.filterMap fun p =>
    match acqCross ecb p with
    | some (_, true) => some p.1
    | _ => none

def ScrAudit.base : ScrAudit :=
  ⟨EXCHANGER_PAIRS.length - 1, 0, 0, [], [], []⟩

/-- scraper.py `fetch_exchanger_rates` (lines 288-392): rate mapping seeded
with the USD base entry, per-currency loop, then the ECB acquisition-time
cross-check.  `ecb` is the USD-based reference set returned by
fetch_ecb_reference_rates (empty on failure). -/
def fetch_exchanger_rates (f : String → ℕ → Attempt) (ecb : List (String × ℚ)) :
    List (String × ℚ) × ScrAudit :=
  let r := EXCHANGER_PAIRS.foldl (exchStep f) ([("USD", 1)], ScrAudit.base)
  (r.1, { r.2 with cross_check_deviations := acqDeviations r.1 ecb })

/-- Pure conversion step of fetch_ecb_rates / fetch_ecb_reference_rates
(audit_rates.py lines 96-108, scraper.py lines 260-279): given the parsed
EUR-based rates (which include the EUR=1.0 entry), divide by the USD entry;
a missing or non-positive USD entry yields the empty set. -/
def convert_ecb (eur_rates : List (String × ℚ)) : List (String × ℚ) :=
  match getRate eur_rates "USD" with
  | some u =>
    if u ≤ 0 then []
    else ("USD", 1) :: eur_rates.filterMap fun p =>
      if p.1 = "USD" then none else some (p.1, roundTo 6 (p.2 / u))
  | none => []

/-- The invariant relating the severity accumulators of run_audit to the checks
list they were accumulated from. -/
def StateInv (s : AuditState) : Prop :=
  s.critical = s.checks.any (fun c => c.status.isCritical) ∧
  s.warnings = s.checks.countP (fun c => c.status.isWarning)


/-!
Characterization of the fetch_exchanger_rates fold: the admitted entries,
the bounds rejections and the fetch failures produced by one pass over
EXCHANGER_PAIRS.
-/

/-- The rate-mapping entry the exchanger loop admits for one registry
entry, if any. -/
def acceptEntry (f : String → ℕ → Attempt) (e : String × String × Bool) : Option (String × ℚ) :=
  if e.1 = "USD" then none else
  match (fetchPrice (f e.1)).1 with
  | none => none
  | some price =>
    match getBounds RATE_BOUNDS e.1 with
    | some (lo, hi) =>
      if lo ≤ normalizeRate e.2.2 price ∧ normalizeRate e.2.2 price ≤ hi then
        some (e.1, roundTo 4 (normalizeRate e.2.2 price))
      else none
    | none => some (e.1, roundTo 4 (normalizeRate e.2.2 price))

/-- The bounds rejection the exchanger loop records for one registry
entry, if any. -/
def rejectEntry (f : String → ℕ → Attempt) (e : String × String × Bool) : Option BoundsReject :=
  if e.1 = "USD" then none else
  match (fetchPrice (f e.1)).1 with
  | none => none
  | some price =>
    match getBounds RATE_BOUNDS e.1 with
    | some (lo, hi) =>
      if lo ≤ normalizeRate e.2.2 price ∧ normalizeRate e.2.2 price ≤ hi then none
      else some ⟨e.1, normalizeRate e.2.2 price, lo, hi⟩
    | none => none

/-- The fetch failure the exchanger loop records for one registry entry,
if any. -/
def failEntry (f : String → ℕ → Attempt) (e : String × String × Bool) : Option String :=
  if e.1 = "USD" then none else
  match (fetchPrice (f e.1)).1 with
  | none => some e.1
  | some _ => none


/-!
General lemmas about the embedding.
-/

theorem qabs_eq_abs (x : ℚ) : qabs x = |x| := by
  unfold qabs
  split
  · exact (abs_of_neg (by assumption)).symm
  · exact (abs_of_nonneg (le_of_not_lt (by assumption))).symm

theorem deviation_abs_formula (s r : ℚ) : deviation s r = |s - r| / r * 100 := by
  rw [deviation, qabs_eq_abs]

theorem stateInv_start : StateInv AuditState.start := ⟨rfl, rfl⟩

theorem stateInv_add (s : AuditState) (name : String) (st : Status) (detail : String)
    (h : StateInv s) : StateInv (add_check s name st detail) := by
  obtain ⟨h1, h2⟩ := h
  constructor
  · simp only [add_check, List.any_append, h1]
    cases st <;> simp [Status.isCritical]
  · simp only [add_check, List.countP_append, h2]
    cases st <;> simp [Status.isWarning, List.countP_cons]

theorem stateInv_fresh (a : Option ℚ) (s : AuditState) (h : StateInv s) :
    StateInv (freshnessStep a s) := stateInv_add _ _ _ _ h

theorem stateInv_min (n : ℕ) (s : AuditState) (h : StateInv s) :
    StateInv (minCountStep n s) := stateInv_add _ _ _ _ h

theorem stateInv_usd (r : List (String × ℚ)) (s : AuditState) (h : StateInv s) :
    StateInv (usdBaseStep r s) := stateInv_add _ _ _ _ h

theorem stateInv_required (r : List (String × ℚ)) (s : AuditState) (h : StateInv s) :
    StateInv (requiredStep r s) := stateInv_add _ _ _ _ h

theorem stateInv_bounds (r : List (String × ℚ)) (s : AuditState) (h : StateInv s) :
    StateInv (boundsStep r s) := stateInv_add _ _ _ _ h

theorem stateInv_ecb (r ecb : List (String × ℚ)) (s : AuditState) (h : StateInv s) :
    StateInv (ecbStep r ecb s) := stateInv_add _ _ _ _ h

theorem stateInv_scraper (m : Option ScraperMeta) (s : AuditState) (h : StateInv s) :
    StateInv (scraperStep m s) := by
  match m with
  | none => exact h
  | some meta =>
    unfold scraperStep
    by_cases h1 : meta.fetch_failed = [] <;> by_cases h2 : meta.bounds_rejected = [] <;>
      simp only [h1, h2, if_pos, if_neg, and_true, true_and, and_false, false_and,
        if_true, if_false, not_true, not_false_iff] <;>
      first
      | exact stateInv_add _ _ _ _ h
      | exact stateInv_add _ _ _ _ (stateInv_add _ _ _ _ h)

theorem status_spec_of_inv (s : AuditState) (h : StateInv s) :
    (if s.critical then Status.CRITICAL
     else if 0 < s.warnings then Status.WARNING else Status.PASS)
      = specOverallStatus s.checks := by
  obtain ⟨h1, h2⟩ := h
  rw [specOverallStatus, h1, h2]
  by_cases hc : s.checks.any (fun c => c.status.isCritical) = true
  · simp [hc]
  · by_cases hw : s.checks.any (fun c => c.status.isWarning) = true
    · obtain ⟨c, hcmem, hcw⟩ := List.any_eq_true.mp hw
      have hpos : 0 < s.checks.countP (fun c => c.status.isWarning) :=
        List.countP_pos_iff.mpr ⟨c, hcmem, hcw⟩
      simp [hc, hw, hpos]
    · have h0 : s.checks.countP (fun c => c.status.isWarning) = 0 := by
        by_contra hne
        have := List.countP_pos_iff.mp (Nat.pos_of_ne_zero hne)
        exact hw (List.any_eq_true.mpr this)
      simp [hc, hw, h0]


theorem add_check_checks (s : AuditState) (name : String) (st : Status) (detail : String) :
    (add_check s name st detail).checks = s.checks ++ [⟨name, st, detail⟩] := rfl

theorem scraperStep_checks (m : Option ScraperMeta) (s : AuditState) :
    ∃ tail, (scraperStep m s).checks = s.checks ++ tail ∧
      ∀ c ∈ tail, c.check = "scraper_failures" ∨ c.check = "scraper_bounds_rejected" ∨
        c.check = "scraper_audit" := by
  match m with
  | none => exact ⟨[], by simp [scraperStep], by simp⟩
  | some meta =>
    unfold scraperStep
    by_cases h1 : meta.fetch_failed = [] <;> by_cases h2 : meta.bounds_rejected = []
    · refine ⟨[⟨"scraper_audit", .PASS, ""⟩], ?_, ?_⟩
      · simp [h1, h2, add_check]
      · simp
    · refine ⟨[⟨"scraper_bounds_rejected", .WARNING, ""⟩], ?_, ?_⟩
      · simp [h1, h2, add_check]
      · simp
    · refine ⟨[⟨"scraper_failures", .WARNING, ""⟩], ?_, ?_⟩
      · simp [h1, h2, add_check]
      · simp
    · refine ⟨[⟨"scraper_failures", .WARNING, ""⟩, ⟨"scraper_bounds_rejected", .WARNING, ""⟩],
        ?_, ?_⟩
      · simp [h1, h2, add_check]
      · simp

/-- The check names emitted by every non-short-circuited audit run, with
the statuses each check computes, in order; the tail holds the optional
step-9 checks. -/
theorem run_audit_checks_shape (d : MarketData) (ecb : List (String × ℚ))
    (hr : d.rates ≠ []) :
    ∃ tail, (run_audit (some d) ecb).checks =
      [⟨"file_exists", .PASS, ""⟩,
       ⟨"freshness", freshnessStatus d.age, ""⟩,
       ⟨"rates_present", .PASS, ""⟩,
       ⟨"minimum_count", minCountStatus d.rates.length, ""⟩,
       ⟨"usd_base", usdBaseStatus d.rates, ""⟩,
       ⟨"required_currencies", requiredStatus d.rates, ""⟩,
       ⟨"bounds_validation", boundsStatus d.rates, ""⟩,
       ⟨"ecb_cross_check", ecbStatus d.rates ecb, ""⟩] ++ tail ∧
      ∀ c ∈ tail, c.check = "scraper_failures" ∨ c.check = "scraper_bounds_rejected" ∨
        c.check = "scraper_audit" := by
  obtain ⟨tail, htail, hnames⟩ :=
    scraperStep_checks d.audit
      (ecbStep d.rates ecb (boundsStep d.rates (requiredStep d.rates (usdBaseStep d.rates
        (minCountStep d.rates.length (add_check (freshnessStep d.age
          (add_check .start "file_exists" .PASS "")) "rates_present" .PASS ""))))))
  refine ⟨tail, ?_, hnames⟩
  simp only [run_audit, if_neg hr]
  rw [htail]
  simp [ecbStep, boundsStep, requiredStep, usdBaseStep, minCountStep, freshnessStep,
        add_check, AuditState.start]


theorem findCheck_ecb_cross (d : MarketData) (ecb : List (String × ℚ)) (hr : d.rates ≠ []) :
    findCheck (run_audit (some d) ecb).checks "ecb_cross_check"
      = some (ecbStatus d.rates ecb) := by
  obtain ⟨tail, hck, -⟩ := run_audit_checks_shape d ecb hr
  rw [hck]
  simp [findCheck]

theorem findCheck_usd_base (d : MarketData) (ecb : List (String × ℚ)) (hr : d.rates ≠ []) :
    findCheck (run_audit (some d) ecb).checks "usd_base"
      = some (usdBaseStatus d.rates) := by
  obtain ⟨tail, hck, -⟩ := run_audit_checks_shape d ecb hr
  rw [hck]
  simp [findCheck]

theorem run_audit_status_spec (data : Option MarketData) (ecb : List (String × ℚ)) :
    (run_audit data ecb).status = specOverallStatus (run_audit data ecb).checks := by
  match data with
  | none => simp [run_audit, add_check, AuditState.start, specOverallStatus, Status.isCritical]
  | some d =>
    by_cases hr : d.rates = []
    · simp only [run_audit, if_pos hr]
      simp [add_check, specOverallStatus, Status.isCritical, List.any_append]
    · simp only [run_audit, if_neg hr]
      exact status_spec_of_inv _ (stateInv_scraper _ _ (stateInv_ecb _ _ _ (stateInv_bounds _ _
        (stateInv_required _ _ (stateInv_usd _ _ (stateInv_min _ _ (stateInv_add _ _ _ _
          (stateInv_fresh _ _ (stateInv_add _ _ _ _ stateInv_start)))))))))

theorem specOverallStatus_critical_of_mem (cs : List Check) (c : Check) (hmem : c ∈ cs)
    (hc : c.status = Status.CRITICAL) : specOverallStatus cs = Status.CRITICAL := by
  have : cs.any (fun c => c.status.isCritical) = true :=
    List.any_eq_true.mpr ⟨c, hmem, by simp [hc, Status.isCritical]⟩
  simp [specOverallStatus, this]


/-- C1. For every audit run (including the short-circuited ones), the
overall report status equals the aggregation of the recorded check
outcomes: CRITICAL if any check is CRITICAL, else WARNING if any check is
WARNING, else PASS; in particular one CRITICAL check forces overall
CRITICAL regardless of every other outcome. -/
theorem overall_status_is_aggregation (data : Option MarketData) (ecb : List (String × ℚ)) :
    (run_audit data ecb).status = specOverallStatus (run_audit data ecb).checks ∧
    (∀ c ∈ (run_audit data ecb).checks, c.status = Status.CRITICAL →
      (run_audit data ecb).status = Status.CRITICAL) := by
  refine ⟨run_audit_status_spec data ecb, fun c hmem hc => ?_⟩
  rw [run_audit_status_spec data ecb]
  exact specOverallStatus_critical_of_mem _ c hmem hc

theorem overall_status_is_aggregation_witness :
    (run_audit none []).status = specOverallStatus (run_audit none []).checks ∧
    (run_audit none []).status = Status.CRITICAL :=
  ⟨(overall_status_is_aggregation none []).1,
   (overall_status_is_aggregation none []).2
     ⟨"file_exists", Status.CRITICAL, "market_data.json not found"⟩ (by decide) rfl⟩

/-- C2. Short-circuiting: a missing dataset terminates the run with overall
CRITICAL and a checks list holding exactly the file_exists/CRITICAL entry;
an empty rate mapping terminates with overall CRITICAL right after the
rates_present check; in every other case all eight remaining checks run. -/
theorem audit_short_circuit :
    (∀ ecb, (run_audit none ecb).status = Status.CRITICAL ∧
      (run_audit none ecb).checks =
        [⟨"file_exists", .CRITICAL, "market_data.json not found"⟩]) ∧
    (∀ (d : MarketData) (ecb : List (String × ℚ)), d.rates = [] →
      (run_audit (some d) ecb).status = Status.CRITICAL ∧
      (run_audit (some d) ecb).checks =
        [⟨"file_exists", .PASS, ""⟩,
         ⟨"freshness", freshnessStatus d.age, ""⟩,
         ⟨"rates_present", .CRITICAL, "No rates block in market_data.json"⟩]) ∧
    (∀ (d : MarketData) (ecb : List (String × ℚ)), d.rates ≠ [] →
      ((run_audit (some d) ecb).checks.map Check.check).take 8 =
        ["file_exists", "freshness", "rates_present", "minimum_count", "usd_base",
         "required_currencies", "bounds_validation", "ecb_cross_check"]) := by
  refine ⟨fun ecb => ⟨rfl, rfl⟩, fun d ecb h => ?_, fun d ecb h => ?_⟩
  · refine ⟨?_, ?_⟩
    · simp only [run_audit, if_pos h]
    · simp only [run_audit, if_pos h]
      simp [add_check, freshnessStep, AuditState.start]
  · obtain ⟨tail, hck, -⟩ := run_audit_checks_shape d ecb h
    rw [hck]
    simp

theorem audit_short_circuit_witness :
    (run_audit (some ⟨some 1, [], none⟩) []).status = Status.CRITICAL ∧
    ((run_audit (some ⟨some 1, [("USD", 1)], none⟩) []).checks.map Check.check).take 8 =
      ["file_exists", "freshness", "rates_present", "minimum_count", "usd_base",
       "required_currencies", "bounds_validation", "ecb_cross_check"] :=
  ⟨(audit_short_circuit.2.1 ⟨some 1, [], none⟩ [] rfl).1,
   audit_short_circuit.2.2 ⟨some 1, [("USD", 1)], none⟩ [] (by simp)⟩


theorem getRate_mem (l : List (String × ℚ)) (c : String) (e : ℚ)
    (h : getRate l c = some e) : (c, e) ∈ l := by
  induction l with
  | nil => cases h
  | cons p rest ih =>
    rw [getRate] at h
    by_cases hp : p.1 = c
    · rw [if_pos hp] at h
      injection h with h
      have hpe : p = (c, e) := by
        cases p
        simp_all
      rw [← hpe]
      exact List.mem_cons_self _ _
    · rw [if_neg hp] at h
      exact List.mem_cons_of_mem _ (ih h)

theorem crossDev_some (ecb : List (String × ℚ)) (pc : String) (pr dev : ℚ)
    (hcd : crossDev ecb pc pr = some dev) :
    pc ≠ "USD" ∧ ∃ e, getRate ecb pc = some e ∧ 0 < e ∧ dev = deviation pr e := by
  unfold crossDev at hcd
  split at hcd
  · cases hcd
  · next husd =>
    split at hcd
    · next e hg =>
      split at hcd
      · next hpos =>
        injection hcd with hcd
        exact ⟨husd, e, hg, hpos, hcd.symm⟩
      · cases hcd
    · cases hcd

theorem crossDev_of_parts (ecb : List (String × ℚ)) (c : String) (r e : ℚ)
    (hne : c ≠ "USD") (hg : getRate ecb c = some e) (hepos : 0 < e) :
    crossDev ecb c r = some (deviation r e) := by
  unfold crossDev
  rw [if_neg hne, hg]
  show (if 0 < e then some (deviation r e) else none) = some (deviation r e)
  rw [if_pos hepos]

theorem mem_crossErrors_iff (rates ecb : List (String × ℚ)) (c : String) :
    c ∈ crossErrors rates ecb ↔
      ∃ r e, (c, r) ∈ rates ∧ c ≠ "USD" ∧ getRate ecb c = some e ∧ 0 < e ∧
        CRITICAL_DEVIATION_PCT < deviation r e := by
  constructor
  · intro hc
    obtain ⟨⟨pc, pr⟩, hp, hfp⟩ := List.mem_filterMap.mp hc
    simp only at hfp
    split at hfp
    · next dev hcd =>
      split at hfp
      · next h10 =>
        injection hfp with hfp
        subst hfp
        obtain ⟨husd, e, hg, hpos, hdev⟩ := crossDev_some ecb pc pr dev hcd
        exact ⟨pr, e, hp, husd, hg, hpos, hdev ▸ h10⟩
      · cases hfp
    · cases hfp
  · rintro ⟨r, e, hp, hne, hg, hepos, hdev⟩
    apply List.mem_filterMap.mpr
    refine ⟨(c, r), hp, ?_⟩
    simp only [crossDev_of_parts ecb c r e hne hg hepos]
    rw [if_pos hdev]

theorem mem_crossWarnings_iff (rates ecb : List (String × ℚ)) (c : String) :
    c ∈ crossWarnings rates ecb ↔
      ∃ r e, (c, r) ∈ rates ∧ c ≠ "USD" ∧ getRate ecb c = some e ∧ 0 < e ∧
        ¬ CRITICAL_DEVIATION_PCT < deviation r e ∧
        WARN_DEVIATION_PCT < deviation r e := by
  constructor
  · intro hc
    obtain ⟨⟨pc, pr⟩, hp, hfp⟩ := List.mem_filterMap.mp hc
    simp only at hfp
    split at hfp
    · next dev hcd =>
      split at hfp
      · cases hfp
      · next h10 =>
        split at hfp
        · next h3 =>
          injection hfp with hfp
          subst hfp
          obtain ⟨husd, e, hg, hpos, hdev⟩ := crossDev_some ecb pc pr dev hcd
          exact ⟨pr, e, hp, husd, hg, hpos, hdev ▸ h10, hdev ▸ h3⟩
        · cases hfp
    · cases hfp
  · rintro ⟨r, e, hp, hne, hg, hepos, h10, h3⟩
    apply List.mem_filterMap.mpr
    refine ⟨(c, r), hp, ?_⟩
    simp only [crossDev_of_parts ecb c r e hne hg hepos]
    rw [if_neg h10, if_pos h3]


/-- C5. With data present, rates nonempty, and a nonempty reference set of
positive rates: the ecb_cross_check outcome is CRITICAL when some currency
present in both sets deviates by more than 10 percent (deviation measured
as the absolute difference over the reference, times 100), else WARNING
when some such currency deviates by more than 3 percent, else PASS. -/
theorem audit_cross_check_tiers (d : MarketData) (ecb : List (String × ℚ))
    (hr : d.rates ≠ []) (he : ecb ≠ []) (hpos : ∀ p ∈ ecb, 0 < p.2) :
    ((∃ p ∈ d.rates, p.1 ≠ "USD" ∧ ∃ e, getRate ecb p.1 = some e ∧
        10 < |p.2 - e| / e * 100) →
      findCheck (run_audit (some d) ecb).checks "ecb_cross_check" = some Status.CRITICAL) ∧
    ((¬ ∃ p ∈ d.rates, p.1 ≠ "USD" ∧ ∃ e, getRate ecb p.1 = some e ∧
        10 < |p.2 - e| / e * 100) →
     (∃ p ∈ d.rates, p.1 ≠ "USD" ∧ ∃ e, getRate ecb p.1 = some e ∧
        3 < |p.2 - e| / e * 100) →
      findCheck (run_audit (some d) ecb).checks "ecb_cross_check" = some Status.WARNING) ∧
    ((¬ ∃ p ∈ d.rates, p.1 ≠ "USD" ∧ ∃ e, getRate ecb p.1 = some e ∧
        3 < |p.2 - e| / e * 100) →
      findCheck (run_audit (some d) ecb).checks "ecb_cross_check" = some Status.PASS) := by
  rw [findCheck_ecb_cross d ecb hr]
  have habs : ∀ r e : ℚ, |r - e| / e * 100 = deviation r e := by
    intro r e
    rw [deviation_abs_formula]
  refine ⟨?_, ?_, ?_⟩
  · rintro ⟨p, hp, hne, e, hg, hdev⟩
    rw [habs p.2 e] at hdev
    have hepos : 0 < e := hpos _ (getRate_mem ecb p.1 e hg)
    have hmem : p.1 ∈ crossErrors d.rates ecb :=
      (mem_crossErrors_iff d.rates ecb p.1).mpr ⟨p.2, e, by simpa using hp, hne, hg, hepos, hdev⟩
    have hne2 : crossErrors d.rates ecb ≠ [] := List.ne_nil_of_mem hmem
    simp [ecbStatus, he, hne2]
  · intro h10 h3
    obtain ⟨p, hp, hne, e, hg, hdev⟩ := h3
    rw [habs p.2 e] at hdev
    have hepos : 0 < e := hpos _ (getRate_mem ecb p.1 e hg)
    have hcerr : crossErrors d.rates ecb = [] := by
      by_contra hcc
      obtain ⟨c, hc⟩ := List.exists_mem_of_ne_nil _ hcc
      obtain ⟨r, e2, hpr, hcne, hcg, hce, hcd⟩ := (mem_crossErrors_iff d.rates ecb c).mp hc
      exact h10 ⟨(c, r), hpr, hcne, e2, hcg, by rw [habs r e2]; exact hcd⟩
    have hnot10 : ¬ CRITICAL_DEVIATION_PCT < deviation p.2 e := by
      intro hgt
      exact h10 ⟨p, hp, hne, e, hg, by rw [habs p.2 e]; exact hgt⟩
    have hmem : p.1 ∈ crossWarnings d.rates ecb :=
      (mem_crossWarnings_iff d.rates ecb p.1).mpr
        ⟨p.2, e, by simpa using hp, hne, hg, hepos, hnot10, hdev⟩
    have hwne : crossWarnings d.rates ecb ≠ [] := List.ne_nil_of_mem hmem
    simp [ecbStatus, he, hcerr, hwne]
  · intro h3
    have hcerr : crossErrors d.rates ecb = [] := by
      by_contra hcc
      obtain ⟨c, hc⟩ := List.exists_mem_of_ne_nil _ hcc
      obtain ⟨r, e2, hpr, hcne, hcg, hce, hcd⟩ := (mem_crossErrors_iff d.rates ecb c).mp hc
      refine h3 ⟨(c, r), hpr, hcne, e2, hcg, ?_⟩
      rw [habs r e2]
      calc (3 : ℚ) < 10 := by norm_num
        _ < deviation r e2 := hcd
    have hcwarn : crossWarnings d.rates ecb = [] := by
      by_contra hcc
      obtain ⟨c, hc⟩ := List.exists_mem_of_ne_nil _ hcc
      obtain ⟨r, e2, hpr, hcne, hcg, hce, -, hcd⟩ := (mem_crossWarnings_iff d.rates ecb c).mp hc
      exact h3 ⟨(c, r), hpr, hcne, e2, hcg, by rw [habs r e2]; exact hcd⟩
    simp [ecbStatus, he, hcerr, hcwarn]

theorem audit_cross_check_tiers_witness :
    ([("USD", (1 : ℚ))] ≠ []) ∧ ([("EUR", (1 : ℚ))] ≠ ([] : List (String × ℚ))) ∧
    findCheck (run_audit (some ⟨some 1, [("USD", 1)], none⟩) [("EUR", 1)]).checks
      "ecb_cross_check" = some Status.PASS :=
  ⟨by simp, by simp,
   (audit_cross_check_tiers ⟨some 1, [("USD", 1)], none⟩ [("EUR", 1)]
      (by simp) (by simp) (by simp)).2.2 (by simp)⟩

/-- C6. When the reference fetch failed or returned the empty set, the
ecb_cross_check outcome is WARNING — never CRITICAL — and a CRITICAL
overall status can only come from some other check; moreover the reference
conversion itself yields the empty set whenever the feed lacks a positive
USD entry. -/
theorem reference_unavailable_never_critical (d : MarketData) (ecb : List (String × ℚ))
    (hr : d.rates ≠ []) (he : ecb = []) :
    findCheck (run_audit (some d) ecb).checks "ecb_cross_check" = some Status.WARNING ∧
    ((run_audit (some d) ecb).status = Status.CRITICAL →
      ∃ c ∈ (run_audit (some d) ecb).checks, c.check ≠ "ecb_cross_check" ∧
        c.status = Status.CRITICAL) ∧
    (∀ raw, (getRate raw "USD" = none ∨ ∃ u, getRate raw "USD" = some u ∧ u ≤ 0) →
      convert_ecb raw = []) := by
  subst he
  refine ⟨?_, ?_, ?_⟩
  · rw [findCheck_ecb_cross d [] hr]
    simp [ecbStatus]
  · intro hstat
    have hagg := run_audit_status_spec (some d) []
    rw [hstat] at hagg
    have hany : (run_audit (some d) []).checks.any (fun c => c.status.isCritical) = true := by
      by_contra hno
      rw [specOverallStatus] at hagg
      rw [if_neg hno] at hagg
      split at hagg <;> cases hagg
    obtain ⟨c, hmem, hcrit⟩ := List.any_eq_true.mp hany
    have hcs : c.status = Status.CRITICAL := by
      cases hst : c.status <;> simp [hst, Status.isCritical] at hcrit
      rfl
    refine ⟨c, hmem, ?_, hcs⟩
    intro hname
    obtain ⟨tail, hck, hnames⟩ := run_audit_checks_shape d [] hr
    rw [hck] at hmem
    simp only [List.cons_append, List.nil_append, List.mem_cons] at hmem
    rcases hmem with rfl | rfl | rfl | rfl | rfl | rfl | rfl | rfl | htl
    · simp at hname
    · simp at hname
    · simp at hname
    · simp at hname
    · simp at hname
    · simp at hname
    · simp at hname
    · rw [show ecbStatus d.rates [] = Status.WARNING from by simp [ecbStatus]] at hcs
      cases hcs
    · rcases hnames c htl with hn | hn | hn <;> rw [hn] at hname <;> exact absurd hname (by decide)
  · intro raw hu
    rcases hu with hn | ⟨u, hu, hle⟩
    · unfold convert_ecb
      rw [hn]
    · unfold convert_ecb
      rw [hu]
      show (if u ≤ 0 then ([] : List (String × ℚ))
            else ("USD", 1) :: raw.filterMap fun p =>
              if p.1 = "USD" then none else some (p.1, roundTo 6 (p.2 / u))) = []
      rw [if_pos hle]

theorem reference_unavailable_never_critical_witness :
    ([("USD", (1 : ℚ))] ≠ []) ∧
    findCheck (run_audit (some ⟨some 1, [("USD", 1)], none⟩) []).checks
      "ecb_cross_check" = some Status.WARNING :=
  ⟨by simp,
   (reference_unavailable_never_critical ⟨some 1, [("USD", 1)], none⟩ []
      (by simp) rfl).1⟩


theorem exchStep_usd (f : String → ℕ → Attempt) (acc : List (String × ℚ) × ScrAudit)
    (e : String × String × Bool) (husd : e.1 = "USD") : exchStep f acc e = acc := by
  unfold exchStep
  rw [if_pos husd]

theorem exchStep_fail (f : String → ℕ → Attempt) (acc : List (String × ℚ) × ScrAudit)
    (e : String × String × Bool) (husd : e.1 ≠ "USD")
    (hfp : (fetchPrice (f e.1)).1 = none) :
    exchStep f acc e = (acc.1, { acc.2 with fetch_failed := acc.2.fetch_failed ++ [e.1] }) := by
  unfold exchStep
  rw [if_neg husd]
  split
  · rfl
  · next price hp => rw [hfp] at hp; cases hp

theorem exchStep_accept_bounds (f : String → ℕ → Attempt) (acc : List (String × ℚ) × ScrAudit)
    (e : String × String × Bool) (price lo hi : ℚ) (husd : e.1 ≠ "USD")
    (hfp : (fetchPrice (f e.1)).1 = some price)
    (hb : getBounds RATE_BOUNDS e.1 = some (lo, hi))
    (hin : lo ≤ normalizeRate e.2.2 price ∧ normalizeRate e.2.2 price ≤ hi) :
    exchStep f acc e = (acc.1 ++ [(e.1, roundTo 4 (normalizeRate e.2.2 price))],
      { acc.2 with fetched := acc.2.fetched + 1, validated := acc.2.validated + 1 }) := by
  unfold exchStep
  rw [if_neg husd]
  split
  · next hp => rw [hp] at hfp; cases hfp
  · next price2 hp =>
    rw [hfp] at hp
    injection hp with hp
    subst hp
    split
    · next lo2 hi2 hb2 =>
      rw [hb] at hb2
      injection hb2 with hb2
      rw [Prod.mk.injEq] at hb2
      obtain ⟨h1, h2⟩ := hb2
      subst h1
      subst h2
      rw [if_pos hin]
    · next hb2 => rw [hb] at hb2

theorem exchStep_reject (f : String → ℕ → Attempt) (acc : List (String × ℚ) × ScrAudit)
    (e : String × String × Bool) (price lo hi : ℚ) (husd : e.1 ≠ "USD")
    (hfp : (fetchPrice (f e.1)).1 = some price)
    (hb : getBounds RATE_BOUNDS e.1 = some (lo, hi))
    (hin : ¬ (lo ≤ normalizeRate e.2.2 price ∧ normalizeRate e.2.2 price ≤ hi)) :
    exchStep f acc e = (acc.1,
      { acc.2 with fetched := acc.2.fetched + 1,
                   bounds_rejected := acc.2.bounds_rejected ++
                     [⟨e.1, normalizeRate e.2.2 price, lo, hi⟩] }) := by
  unfold exchStep
  rw [if_neg husd]
  split
  · next hp => rw [hp] at hfp; cases hfp
  · next price2 hp =>
    rw [hfp] at hp
    injection hp with hp
    subst hp
    split
    · next lo2 hi2 hb2 =>
      rw [hb] at hb2
      injection hb2 with hb2
      rw [Prod.mk.injEq] at hb2
      obtain ⟨h1, h2⟩ := hb2
      subst h1
      subst h2
      rw [if_neg hin]
    · next hb2 => rw [hb] at hb2; cases hb2

theorem exchStep_accept_nobounds (f : String → ℕ → Attempt) (acc : List (String × ℚ) × ScrAudit)
    (e : String × String × Bool) (price : ℚ) (husd : e.1 ≠ "USD")
    (hfp : (fetchPrice (f e.1)).1 = some price)
    (hb : getBounds RATE_BOUNDS e.1 = none) :
    exchStep f acc e = (acc.1 ++ [(e.1, roundTo 4 (normalizeRate e.2.2 price))],
      { acc.2 with fetched := acc.2.fetched + 1, validated := acc.2.validated + 1 }) := by
  unfold exchStep
  rw [if_neg husd]
  split
  · next hp => rw [hp] at hfp; cases hfp
  · next price2 hp =>
    rw [hfp] at hp
    injection hp with hp
    subst hp
    split
    · next lo2 hi2 hb2 => rw [hb] at hb2; cases hb2
    · rfl


theorem exch_foldl_spec (f : String → ℕ → Attempt) (pairs : List (String × String × Bool)) :
    ∀ (l : List (String × ℚ)) (a : ScrAudit),
      (pairs.foldl (exchStep f) (l, a)).1 = l ++ pairs.filterMap (acceptEntry f) ∧
      (pairs.foldl (exchStep f) (l, a)).2.bounds_rejected
        = a.bounds_rejected ++ pairs.filterMap (rejectEntry f) ∧
      (pairs.foldl (exchStep f) (l, a)).2.fetch_failed
        = a.fetch_failed ++ pairs.filterMap (failEntry f) := by
  induction pairs with
  | nil => intro l a; simp
  | cons e rest ih =>
    intro l a
    rw [List.foldl_cons]
    by_cases husd : e.1 = "USD"
    · have ha : acceptEntry f e = none := by rw [acceptEntry, if_pos husd]
      have hb : rejectEntry f e = none := by rw [rejectEntry, if_pos husd]
      have hc : failEntry f e = none := by rw [failEntry, if_pos husd]
      rw [exchStep_usd f (l, a) e husd]
      simpa [List.filterMap_cons, ha, hb, hc] using ih l a
    · cases hfp : (fetchPrice (f e.1)).1 with
      | none =>
        have ha : acceptEntry f e = none := by rw [acceptEntry, if_neg husd, hfp]
        have hb : rejectEntry f e = none := by rw [rejectEntry, if_neg husd, hfp]
        have hc : failEntry f e = some e.1 := by rw [failEntry, if_neg husd, hfp]
        rw [exchStep_fail f (l, a) e husd hfp]
        obtain ⟨i1, i2, i3⟩ := ih l { a with fetch_failed := a.fetch_failed ++ [e.1] }
        refine ⟨by simpa [List.filterMap_cons, ha] using i1,
                by simpa [List.filterMap_cons, hb] using i2, ?_⟩
        rw [i3]
        simp [List.filterMap_cons, hc]
      | some price =>
        cases hbnd : getBounds RATE_BOUNDS e.1 with
        | some bd =>
          obtain ⟨lo, hi⟩ := bd
          by_cases hin : lo ≤ normalizeRate e.2.2 price ∧ normalizeRate e.2.2 price ≤ hi
          · have ha : acceptEntry f e = some (e.1, roundTo 4 (normalizeRate e.2.2 price)) := by
              rw [acceptEntry, if_neg husd, hfp]
              show (match getBounds RATE_BOUNDS e.1 with
                    | some (lo, hi) =>
                      if lo ≤ normalizeRate e.2.2 price ∧ normalizeRate e.2.2 price ≤ hi then
                        some (e.1, roundTo 4 (normalizeRate e.2.2 price))
                      else none
                    | none => some (e.1, roundTo 4 (normalizeRate e.2.2 price))) = _
              rw [hbnd]
              show (if lo ≤ normalizeRate e.2.2 price ∧ normalizeRate e.2.2 price ≤ hi then
                      some (e.1, roundTo 4 (normalizeRate e.2.2 price))
                    else none) = _
              rw [if_pos hin]
            have hb : rejectEntry f e = none := by
              rw [rejectEntry, if_neg husd, hfp]
              show (match getBounds RATE_BOUNDS e.1 with
                    | some (lo, hi) =>
                      if lo ≤ normalizeRate e.2.2 price ∧ normalizeRate e.2.2 price ≤ hi then none
                      else some (BoundsReject.mk e.1 (normalizeRate e.2.2 price) lo hi)
                    | none => none) = _
              rw [hbnd]
              show (if lo ≤ normalizeRate e.2.2 price ∧ normalizeRate e.2.2 price ≤ hi then none
                    else some (BoundsReject.mk e.1 (normalizeRate e.2.2 price) lo hi)) = _
              rw [if_pos hin]
            have hc : failEntry f e = none := by rw [failEntry, if_neg husd, hfp]
            rw [exchStep_accept_bounds f (l, a) e price lo hi husd hfp hbnd hin]
            obtain ⟨i1, i2, i3⟩ :=
              ih (l ++ [(e.1, roundTo 4 (normalizeRate e.2.2 price))])
                { a with fetched := a.fetched + 1, validated := a.validated + 1 }
            refine ⟨?_, by simpa [List.filterMap_cons, hb] using i2,
                    by simpa [List.filterMap_cons, hc] using i3⟩
            rw [i1]
            simp [List.filterMap_cons, ha]
          · have ha : acceptEntry f e = none := by
              rw [acceptEntry, if_neg husd, hfp]
              show (match getBounds RATE_BOUNDS e.1 with
                    | some (lo, hi) =>
                      if lo ≤ normalizeRate e.2.2 price ∧ normalizeRate e.2.2 price ≤ hi then
                        some (e.1, roundTo 4 (normalizeRate e.2.2 price))
                      else none
                    | none => some (e.1, roundTo 4 (normalizeRate e.2.2 price))) = _
              rw [hbnd]
              show (if lo ≤ normalizeRate e.2.2 price ∧ normalizeRate e.2.2 price ≤ hi then
                      some (e.1, roundTo 4 (normalizeRate e.2.2 price))
                    else none) = _
              rw [if_neg hin]
            have hb : rejectEntry f e = some (BoundsReject.mk e.1 (normalizeRate e.2.2 price) lo hi) := by
              rw [rejectEntry, if_neg husd, hfp]
              show (match getBounds RATE_BOUNDS e.1 with
                    | some (lo, hi) =>
                      if lo ≤ normalizeRate e.2.2 price ∧ normalizeRate e.2.2 price ≤ hi then none
                      else some (BoundsReject.mk e.1 (normalizeRate e.2.2 price) lo hi)
                    | none => none) = _
              rw [hbnd]
              show (if lo ≤ normalizeRate e.2.2 price ∧ normalizeRate e.2.2 price ≤ hi then none
                    else some (BoundsReject.mk e.1 (normalizeRate e.2.2 price) lo hi)) = _
              rw [if_neg hin]
            have hc : failEntry f e = none := by rw [failEntry, if_neg husd, hfp]
            rw [exchStep_reject f (l, a) e price lo hi husd hfp hbnd hin]
            obtain ⟨i1, i2, i3⟩ :=
              ih l { a with fetched := a.fetched + 1,
                            bounds_rejected := a.bounds_rejected ++
                              [BoundsReject.mk e.1 (normalizeRate e.2.2 price) lo hi] }
            refine ⟨by simpa [List.filterMap_cons, ha] using i1, ?_,
                    by simpa [List.filterMap_cons, hc] using i3⟩
            rw [i2]
            simp [List.filterMap_cons, hb]
        | none =>
          have ha : acceptEntry f e = some (e.1, roundTo 4 (normalizeRate e.2.2 price)) := by
            rw [acceptEntry, if_neg husd, hfp]
            show (match getBounds RATE_BOUNDS e.1 with
                  | some (lo, hi) =>
                    if lo ≤ normalizeRate e.2.2 price ∧ normalizeRate e.2.2 price ≤ hi then
                      some (e.1, roundTo 4 (normalizeRate e.2.2 price))
                    else none
                  | none => some (e.1, roundTo 4 (normalizeRate e.2.2 price))) = _
            rw [hbnd]
          have hb : rejectEntry f e = none := by
            rw [rejectEntry, if_neg husd, hfp]
            show (match getBounds RATE_BOUNDS e.1 with
                  | some (lo, hi) =>
                    if lo ≤ normalizeRate e.2.2 price ∧ normalizeRate e.2.2 price ≤ hi then none
                    else some (BoundsReject.mk e.1 (normalizeRate e.2.2 price) lo hi)
                  | none => none) = _
            rw [hbnd]
          have hc : failEntry f e = none := by rw [failEntry, if_neg husd, hfp]
          rw [exchStep_accept_nobounds f (l, a) e price husd hfp hbnd]
          obtain ⟨i1, i2, i3⟩ :=
            ih (l ++ [(e.1, roundTo 4 (normalizeRate e.2.2 price))])
              { a with fetched := a.fetched + 1, validated := a.validated + 1 }
          refine ⟨?_, by simpa [List.filterMap_cons, hb] using i2,
                  by simpa [List.filterMap_cons, hc] using i3⟩
          rw [i1]
          simp [List.filterMap_cons, ha]


theorem acceptEntry_key (f : String → ℕ → Attempt) (e : String × String × Bool)
    (q : String × ℚ) (h : acceptEntry f e = some q) : q.1 = e.1 := by
  unfold acceptEntry at h
  split at h
  · cases h
  · split at h
    · cases h
    · split at h
      · split at h
        · injection h with h
          rw [← h]
        · cases h
      · injection h with h
        rw [← h]

theorem rejectEntry_code (f : String → ℕ → Attempt) (e : String × String × Bool)
    (b : BoundsReject) (h : rejectEntry f e = some b) : b.code = e.1 := by
  unfold rejectEntry at h
  split at h
  · cases h
  · split at h
    · cases h
    · split at h
      · split at h
        · cases h
        · injection h with h
          rw [← h]
      · cases h

theorem accept_some_reject_none (f : String → ℕ → Attempt) (e : String × String × Bool)
    (q : String × ℚ) (h : acceptEntry f e = some q) : rejectEntry f e = none := by
  unfold acceptEntry at h
  unfold rejectEntry
  split at h
  · cases h
  · next husd =>
    rw [if_neg husd]
    split at h
    · cases h
    · split at h
      · split at h
        · next hin => rw [if_pos hin]
        · cases h
      · rfl

theorem getRate_append_left_none (l1 l2 : List (String × ℚ)) (c : String)
    (h : getRate l1 c = none) : getRate (l1 ++ l2) c = getRate l2 c := by
  induction l1 with
  | nil => simp
  | cons p rest ih =>
    rw [getRate] at h
    rw [List.cons_append, getRate]
    by_cases hp : p.1 = c
    · rw [if_pos hp] at h
      cases h
    · rw [if_neg hp] at h
      rw [if_neg hp]
      exact ih h

theorem getRate_filterMap_not_mem (f : String → ℕ → Attempt)
    (pairs : List (String × String × Bool)) (c : String)
    (hc : c ∉ pairs.map (fun e => e.1)) :
    getRate (pairs.filterMap (acceptEntry f)) c = none := by
  induction pairs with
  | nil => rfl
  | cons e rest ih =>
    rw [List.map_cons] at hc
    have hce : e.1 ≠ c := fun h => hc (by rw [h]; exact List.mem_cons_self _ _)
    have hcr : c ∉ rest.map (fun e => e.1) := fun h => hc (List.mem_cons_of_mem _ h)
    rw [List.filterMap_cons]
    cases hq : acceptEntry f e with
    | none => exact ih hcr
    | some q =>
      rw [getRate]
      have : q.1 ≠ c := by rw [acceptEntry_key f e q hq]; exact hce
      rw [if_neg this]
      exact ih hcr

theorem getRate_filterMap_accept (f : String → ℕ → Attempt)
    (pairs : List (String × String × Bool))
    (hnd : (pairs.map (fun e => e.1)).Nodup) (e : String × String × Bool)
    (he : e ∈ pairs) :
    getRate (pairs.filterMap (acceptEntry f)) e.1 = (acceptEntry f e).map (fun q => q.2) := by
  induction pairs with
  | nil => cases he
  | cons hd rest ih =>
    rw [List.map_cons, List.nodup_cons] at hnd
    obtain ⟨hhd, hrest⟩ := hnd
    rcases List.mem_cons.mp he with rfl | hmem
    · rw [List.filterMap_cons]
      cases hq : acceptEntry f e with
      | none =>
        rw [getRate_filterMap_not_mem f rest e.1 hhd]
        rfl
      | some q =>
        rw [getRate]
        rw [if_pos (acceptEntry_key f e q hq)]
        rfl
    · have hne : hd.1 ≠ e.1 := by
        intro hh
        exact hhd (hh ▸ List.mem_map_of_mem (fun x => x.1) hmem)
      rw [List.filterMap_cons]
      cases hq : acceptEntry f hd with
      | none => exact ih hrest hmem
      | some q =>
        rw [getRate]
        have : q.1 ≠ e.1 := by rw [acceptEntry_key f hd q hq]; exact hne
        rw [if_neg this]
        exact ih hrest hmem

theorem exchKeysNodup : (EXCHANGER_PAIRS.map (fun e => e.1)).Nodup := by decide

theorem fetch_spec (f : String → ℕ → Attempt) (ecb : List (String × ℚ)) :
    (fetch_exchanger_rates f ecb).1
      = [("USD", 1)] ++ EXCHANGER_PAIRS.filterMap (acceptEntry f) ∧
    (fetch_exchanger_rates f ecb).2.bounds_rejected
      = EXCHANGER_PAIRS.filterMap (rejectEntry f) ∧
    (fetch_exchanger_rates f ecb).2.fetch_failed
      = EXCHANGER_PAIRS.filterMap (failEntry f) := by
  obtain ⟨h1, h2, h3⟩ := exch_foldl_spec f EXCHANGER_PAIRS [("USD", 1)] ScrAudit.base
  refine ⟨?_, ?_, ?_⟩
  · show (EXCHANGER_PAIRS.foldl (exchStep f) ([("USD", 1)], ScrAudit.base)).1 = _
    exact h1
  · show (EXCHANGER_PAIRS.foldl (exchStep f) ([("USD", 1)], ScrAudit.base)).2.bounds_rejected = _
    rw [h2]
    rfl
  · show (EXCHANGER_PAIRS.foldl (exchStep f) ([("USD", 1)], ScrAudit.base)).2.fetch_failed = _
    rw [h3]
    rfl

theorem fetch_rates_getRate (f : String → ℕ → Attempt) (ecb : List (String × ℚ))
    (e : String × String × Bool) (he : e ∈ EXCHANGER_PAIRS) (husd : e.1 ≠ "USD") :
    getRate (fetch_exchanger_rates f ecb).1 e.1 = (acceptEntry f e).map (fun q => q.2) := by
  rw [(fetch_spec f ecb).1, List.singleton_append, getRate]
  rw [if_neg (fun hh : ("USD", (1 : ℚ)).1 = e.1 => husd hh.symm)]
  exact getRate_filterMap_accept f EXCHANGER_PAIRS exchKeysNodup e he


theorem acceptEntry_of_ok (f : String → ℕ → Attempt) (e : String × String × Bool) (price : ℚ)
    (husd : e.1 ≠ "USD") (hfp : (fetchPrice (f e.1)).1 = some price)
    (hok : getBounds RATE_BOUNDS e.1 = none ∨
      ∃ lo hi, getBounds RATE_BOUNDS e.1 = some (lo, hi) ∧
        lo ≤ normalizeRate e.2.2 price ∧ normalizeRate e.2.2 price ≤ hi) :
    acceptEntry f e = some (e.1, roundTo 4 (normalizeRate e.2.2 price)) := by
  unfold acceptEntry
  rw [if_neg husd, hfp]
  show (match getBounds RATE_BOUNDS e.1 with
        | some (lo, hi) =>
          if lo ≤ normalizeRate e.2.2 price ∧ normalizeRate e.2.2 price ≤ hi then
            some (e.1, roundTo 4 (normalizeRate e.2.2 price))
          else none
        | none => some (e.1, roundTo 4 (normalizeRate e.2.2 price))) = _
  rcases hok with hb | ⟨lo, hi, hb, h1, h2⟩
  · rw [hb]
  · rw [hb]
    show (if lo ≤ normalizeRate e.2.2 price ∧ normalizeRate e.2.2 price ≤ hi then
            some (e.1, roundTo 4 (normalizeRate e.2.2 price))
          else none) = _
    rw [if_pos ⟨h1, h2⟩]

theorem acceptEntry_of_out (f : String → ℕ → Attempt) (e : String × String × Bool)
    (price lo hi : ℚ) (husd : e.1 ≠ "USD") (hfp : (fetchPrice (f e.1)).1 = some price)
    (hb : getBounds RATE_BOUNDS e.1 = some (lo, hi))
    (hout : ¬ (lo ≤ normalizeRate e.2.2 price ∧ normalizeRate e.2.2 price ≤ hi)) :
    acceptEntry f e = none := by
  unfold acceptEntry
  rw [if_neg husd, hfp]
  show (match getBounds RATE_BOUNDS e.1 with
        | some (lo, hi) =>
          if lo ≤ normalizeRate e.2.2 price ∧ normalizeRate e.2.2 price ≤ hi then
            some (e.1, roundTo 4 (normalizeRate e.2.2 price))
          else none
        | none => some (e.1, roundTo 4 (normalizeRate e.2.2 price))) = _
  rw [hb]
  show (if lo ≤ normalizeRate e.2.2 price ∧ normalizeRate e.2.2 price ≤ hi then
          some (e.1, roundTo 4 (normalizeRate e.2.2 price))
        else none) = _
  rw [if_neg hout]

theorem rejectEntry_of_out (f : String → ℕ → Attempt) (e : String × String × Bool)
    (price lo hi : ℚ) (husd : e.1 ≠ "USD") (hfp : (fetchPrice (f e.1)).1 = some price)
    (hb : getBounds RATE_BOUNDS e.1 = some (lo, hi))
    (hout : ¬ (lo ≤ normalizeRate e.2.2 price ∧ normalizeRate e.2.2 price ≤ hi)) :
    rejectEntry f e = some (BoundsReject.mk e.1 (normalizeRate e.2.2 price) lo hi) := by
  unfold rejectEntry
  rw [if_neg husd, hfp]
  show (match getBounds RATE_BOUNDS e.1 with
        | some (lo, hi) =>
          if lo ≤ normalizeRate e.2.2 price ∧ normalizeRate e.2.2 price ≤ hi then none
          else some (BoundsReject.mk e.1 (normalizeRate e.2.2 price) lo hi)
        | none => none) = _
  rw [hb]
  show (if lo ≤ normalizeRate e.2.2 price ∧ normalizeRate e.2.2 price ≤ hi then none
        else some (BoundsReject.mk e.1 (normalizeRate e.2.2 price) lo hi)) = _
  rw [if_neg hout]

theorem acceptEntry_of_fail (f : String → ℕ → Attempt) (e : String × String × Bool)
    (husd : e.1 ≠ "USD") (hfp : (fetchPrice (f e.1)).1 = none) :
    acceptEntry f e = none := by
  unfold acceptEntry
  rw [if_neg husd, hfp]

theorem failEntry_of_fail (f : String → ℕ → Attempt) (e : String × String × Bool)
    (husd : e.1 ≠ "USD") (hfp : (fetchPrice (f e.1)).1 = none) :
    failEntry f e = some e.1 := by
  unfold failEntry
  rw [if_neg husd, hfp]

theorem fetchPrice_const_pos (p : ℚ) (hp : 0 < p) :
    fetchPrice (fun _ => Attempt.price p) = (some p, []) := by
  show retryLoop [Attempt.price p, Attempt.price p, Attempt.price p] RETRY_DELAY = (some p, [])
  simp only [retryLoop]
  rw [if_pos hp]

/-- C3. For a currency whose fetched price survives the retry loop and
whose normalized rate is not rejected by bounds validation: the internally
validated rate is the direction-normalized quote (1/latestClose when
invert, latestClose otherwise) rounded to 6 decimal places, and the
externally stored rate set holds that value rounded to 4 decimal places. -/
theorem normalization_direction_rounding (f : String → ℕ → Attempt) (ecb : List (String × ℚ))
    (code ticker : String) (invert : Bool) (price : ℚ)
    (hmem : (code, ticker, invert) ∈ EXCHANGER_PAIRS) (husd : code ≠ "USD")
    (hfp : (fetchPrice (f code)).1 = some price)
    (hok : getBounds RATE_BOUNDS code = none ∨
      ∃ lo hi, getBounds RATE_BOUNDS code = some (lo, hi) ∧
        lo ≤ normalizeRate invert price ∧ normalizeRate invert price ≤ hi) :
    normalizeRate invert price = roundTo 6 (if invert then 1 / price else price) ∧
    getRate (fetch_exchanger_rates f ecb).1 code
      = some (roundTo 4 (roundTo 6 (if invert then 1 / price else price))) := by
  refine ⟨rfl, ?_⟩
  have h := fetch_rates_getRate f ecb (code, ticker, invert) hmem husd
  rw [h, acceptEntry_of_ok f (code, ticker, invert) price husd hfp hok]
  rfl

theorem normalization_direction_rounding_witness :
    (("EUR", "EURUSD=X", true) ∈ EXCHANGER_PAIRS) ∧
    getRate (fetch_exchanger_rates (fun _ _ => Attempt.price (17 / 20)) []).1 "EUR"
      = some (roundTo 4 (roundTo 6 (1 / (17 / 20 : ℚ)))) :=
  ⟨by decide,
   (normalization_direction_rounding (fun _ _ => Attempt.price (17 / 20)) [] "EUR" "EURUSD=X"
      true (17 / 20) (by decide) (by decide)
      (by rw [fetchPrice_const_pos (17 / 20) (by norm_num)])
      (Or.inr ⟨0.50, 1.50, rfl,
        by norm_num [normalizeRate, roundTo, round_eq],
        by norm_num [normalizeRate, roundTo, round_eq]⟩)).2⟩

/-- C4. Bounds classification at acquisition time, for a currency whose
fetch succeeded: with bounds (lo, hi), a normalized rate inside [lo, hi]
is admitted to the rate set (at 4 dp) and never recorded as rejected; a
normalized rate outside the range is recorded in bounds_rejected with its
code, rate and bounds and never appears in the final mapping; a code
absent from the bounds table is admitted unconditionally. -/
theorem bounds_classification_acquisition (f : String → ℕ → Attempt)
    (ecb : List (String × ℚ)) (code ticker : String) (invert : Bool) (price : ℚ)
    (hmem : (code, ticker, invert) ∈ EXCHANGER_PAIRS) (husd : code ≠ "USD")
    (hfp : (fetchPrice (f code)).1 = some price) :
    (∀ lo hi, getBounds RATE_BOUNDS code = some (lo, hi) →
      lo ≤ normalizeRate invert price → normalizeRate invert price ≤ hi →
      getRate (fetch_exchanger_rates f ecb).1 code
          = some (roundTo 4 (normalizeRate invert price)) ∧
        ∀ b ∈ (fetch_exchanger_rates f ecb).2.bounds_rejected, b.code ≠ code) ∧
    (∀ lo hi, getBounds RATE_BOUNDS code = some (lo, hi) →
      ¬ (lo ≤ normalizeRate invert price ∧ normalizeRate invert price ≤ hi) →
      BoundsReject.mk code (normalizeRate invert price) lo hi
          ∈ (fetch_exchanger_rates f ecb).2.bounds_rejected ∧
        getRate (fetch_exchanger_rates f ecb).1 code = none) ∧
    (getBounds RATE_BOUNDS code = none →
      getRate (fetch_exchanger_rates f ecb).1 code
        = some (roundTo 4 (normalizeRate invert price))) := by
  refine ⟨?_, ?_, ?_⟩
  · intro lo hi hb h1 h2
    constructor
    · rw [fetch_rates_getRate f ecb (code, ticker, invert) hmem husd,
          acceptEntry_of_ok f (code, ticker, invert) price husd hfp
            (Or.inr ⟨lo, hi, hb, h1, h2⟩)]
      rfl
    · intro b hbmem hbc
      rw [(fetch_spec f ecb).2.1] at hbmem
      obtain ⟨e2, he2, hre2⟩ := List.mem_filterMap.mp hbmem
      have hkey : e2.1 = code := by
        rw [← rejectEntry_code f e2 b hre2, hbc]
      have heq : e2 = (code, ticker, invert) :=
        List.inj_on_of_nodup_map exchKeysNodup he2 hmem hkey
      rw [heq] at hre2
      rw [accept_some_reject_none f (code, ticker, invert) _
            (acceptEntry_of_ok f (code, ticker, invert) price husd hfp
              (Or.inr ⟨lo, hi, hb, h1, h2⟩))] at hre2
      cases hre2
  · intro lo hi hb hout
    constructor
    · rw [(fetch_spec f ecb).2.1]
      exact List.mem_filterMap.mpr
        ⟨(code, ticker, invert), hmem,
         rejectEntry_of_out f (code, ticker, invert) price lo hi husd hfp hb hout⟩
    · rw [fetch_rates_getRate f ecb (code, ticker, invert) hmem husd,
          acceptEntry_of_out f (code, ticker, invert) price lo hi husd hfp hb hout]
      rfl
  · intro hb
    rw [fetch_rates_getRate f ecb (code, ticker, invert) hmem husd,
        acceptEntry_of_ok f (code, ticker, invert) price husd hfp (Or.inl hb)]
    rfl

theorem bounds_classification_acquisition_witness :
    getBounds RATE_BOUNDS "EUR" = some (0.50, 1.50) ∧
    (BoundsReject.mk "EUR" (normalizeRate true (1 / 4)) 0.50 1.50
        ∈ (fetch_exchanger_rates (fun _ _ => Attempt.price (1 / 4)) []).2.bounds_rejected) ∧
    getRate (fetch_exchanger_rates (fun _ _ => Attempt.price (1 / 4)) []).1 "EUR" = none :=
  ⟨rfl,
   ((bounds_classification_acquisition (fun _ _ => Attempt.price (1 / 4)) [] "EUR" "EURUSD=X"
      true (1 / 4) (by decide) (by decide)
      (by rw [fetchPrice_const_pos (1 / 4) (by norm_num)])).2.1 0.50 1.50
      rfl (by norm_num [normalizeRate, roundTo, round_eq])).1,
   ((bounds_classification_acquisition (fun _ _ => Attempt.price (1 / 4)) [] "EUR" "EURUSD=X"
      true (1 / 4) (by decide) (by decide)
      (by rw [fetchPrice_const_pos (1 / 4) (by norm_num)])).2.1 0.50 1.50
      rfl (by norm_num [normalizeRate, roundTo, round_eq])).2⟩


theorem boundsDetails_key (rates : List (String × ℚ)) (p : String × CurrencyDetail)
    (hp : p ∈ boundsDetails rates) : p.1 ≠ "USD" := by
  obtain ⟨q, hq, hfq⟩ := List.mem_filterMap.mp hp
  split at hfq
  · cases hfq
  · next husd =>
    injection hfq with hfq
    rw [← hfq]
    exact husd

theorem withEcb_key (ecb : List (String × ℚ)) (p : String × CurrencyDetail) :
    (withEcb ecb p).1 = p.1 := by
  unfold withEcb
  split
  · split
    · rfl
    · rfl
  · rfl

/-- C10. The audit bounds loop and cross-check loop skip the base
currency: no report ever carries a "USD" key in details_per_currency, a
stored USD rate is never counted among the bounds violations, and USD
never contributes a cross-check deviation in either tier. -/
theorem audit_skips_base_currency (d : MarketData) (ecb : List (String × ℚ)) :
    (∀ p ∈ (run_audit (some d) ecb).details_per_currency, p.1 ≠ "USD") ∧
    "USD" ∉ boundsViolations d.rates ∧
    "USD" ∉ crossErrors d.rates ecb ∧
    "USD" ∉ crossWarnings d.rates ecb := by
  refine ⟨?_, ?_, ?_, ?_⟩
  · intro p hp
    by_cases hr : d.rates = []
    · simp only [run_audit, if_pos hr] at hp
      simp at hp
    · simp only [run_audit, if_neg hr] at hp
      unfold auditDetails at hp
      split at hp
      · exact boundsDetails_key d.rates p hp
      · obtain ⟨q, hq, hfq⟩ := List.mem_map.mp hp
        rw [← hfq, withEcb_key]
        exact boundsDetails_key d.rates q hq
  · intro h
    obtain ⟨q, hq, hfq⟩ := List.mem_filterMap.mp h
    split at hfq
    · cases hfq
    · next husd =>
      split at hfq
      · split at hfq
        · cases hfq
        · injection hfq with hfq
          exact husd hfq
      · cases hfq
  · intro h
    obtain ⟨r, e, -, hne, -⟩ := (mem_crossErrors_iff d.rates ecb "USD").mp h
    exact hne rfl
  · intro h
    obtain ⟨r, e, -, hne, -⟩ := (mem_crossWarnings_iff d.rates ecb "USD").mp h
    exact hne rfl

theorem audit_skips_base_currency_witness :
    "USD" ∉ boundsViolations [("USD", (27 : ℚ))] ∧
    "USD" ∉ crossErrors [("USD", (27 : ℚ))] [("USD", (1 : ℚ))] :=
  ⟨(audit_skips_base_currency ⟨some 1, [("USD", 27)], none⟩ [("USD", 1)]).2.1,
   (audit_skips_base_currency ⟨some 1, [("USD", 27)], none⟩ [("USD", 1)]).2.2.1⟩

/-- C9. The rate mapping of every acquisition run contains the base entry
USD mapped to exactly 1.0 — even when every per-currency fetch fails, the
mapping is exactly the base entry — and the audit base-sanity check is
PASS exactly when the stored USD rate equals 1.0 and CRITICAL otherwise,
including when the USD entry is absent. -/
theorem base_currency_invariant :
    (∀ (f : String → ℕ → Attempt) (ecb : List (String × ℚ)),
      getRate (fetch_exchanger_rates f ecb).1 "USD" = some 1) ∧
    ((fetch_exchanger_rates (fun _ _ => Attempt.exc) []).1 = [("USD", 1)]) ∧
    (∀ (d : MarketData) (ecb : List (String × ℚ)), d.rates ≠ [] →
      findCheck (run_audit (some d) ecb).checks "usd_base"
        = some (if getRate d.rates "USD" = some 1 then Status.PASS else Status.CRITICAL)) := by
  refine ⟨?_, ?_, ?_⟩
  · intro f ecb
    rw [(fetch_spec f ecb).1, List.singleton_append, getRate]
    rw [if_pos rfl]
  · decide
  · intro d ecb hr
    rw [findCheck_usd_base d ecb hr]
    rfl

theorem base_currency_invariant_witness :
    ([("USD", (1 : ℚ))] ≠ []) ∧
    findCheck (run_audit (some ⟨some 1, [("USD", 1)], none⟩) []).checks "usd_base"
      = some (if getRate [("USD", (1 : ℚ))] "USD" = some 1 then Status.PASS
              else Status.CRITICAL) :=
  ⟨by simp, base_currency_invariant.2.2 ⟨some 1, [("USD", 1)], none⟩ [] (by simp)⟩


theorem retryLoop_sleeps (as : List Attempt) : ∀ d : ℚ,
    ∃ k, (retryLoop as d).2 = geomSleeps d k ∧ (k = 0 ∨ k < as.length) := by
  induction as with
  | nil => intro d; exact ⟨0, rfl, Or.inl rfl⟩
  | cons a rest ih =>
    intro d
    match a with
    | .price p =>
      by_cases hp : 0 < p
      · refine ⟨0, ?_, Or.inl rfl⟩
        show (if 0 < p then ((some p, []) : Option ℚ × List ℚ) else retryLoop rest d).2
          = geomSleeps d 0
        rw [if_pos hp]
        rfl
      · obtain ⟨k, hk, hb⟩ := ih d
        refine ⟨k, ?_, ?_⟩
        · show (if 0 < p then ((some p, []) : Option ℚ × List ℚ) else retryLoop rest d).2
            = geomSleeps d k
          rw [if_neg hp]
          exact hk
        · rcases hb with h | h
          · exact Or.inl h
          · exact Or.inr (Nat.lt_succ_of_lt h)
    | .empty =>
      by_cases hrest : rest = []
      · refine ⟨0, ?_, Or.inl rfl⟩
        show (if rest = [] then ((none, []) : Option ℚ × List ℚ)
              else ((retryLoop rest (d * 2)).1, d :: (retryLoop rest (d * 2)).2)).2
          = geomSleeps d 0
        rw [if_pos hrest]
        rfl
      · obtain ⟨k, hk, hb⟩ := ih (d * 2)
        refine ⟨k + 1, ?_, Or.inr ?_⟩
        · show (if rest = [] then ((none, []) : Option ℚ × List ℚ)
                else ((retryLoop rest (d * 2)).1, d :: (retryLoop rest (d * 2)).2)).2
            = geomSleeps d (k + 1)
          rw [if_neg hrest]
          show d :: (retryLoop rest (d * 2)).2 = d :: geomSleeps (d * 2) k
          rw [hk]
        · have hlen : 0 < rest.length := List.length_pos.mpr hrest
          rcases hb with h | h
          · rw [h]
            exact Nat.succ_lt_succ hlen
          · exact Nat.succ_lt_succ h
    | .exc =>
      by_cases hrest : rest = []
      · refine ⟨0, ?_, Or.inl rfl⟩
        show (if rest = [] then ((none, []) : Option ℚ × List ℚ)
              else ((retryLoop rest (d * 2)).1, d :: (retryLoop rest (d * 2)).2)).2
          = geomSleeps d 0
        rw [if_pos hrest]
        rfl
      · obtain ⟨k, hk, hb⟩ := ih (d * 2)
        refine ⟨k + 1, ?_, Or.inr ?_⟩
        · show (if rest = [] then ((none, []) : Option ℚ × List ℚ)
                else ((retryLoop rest (d * 2)).1, d :: (retryLoop rest (d * 2)).2)).2
            = geomSleeps d (k + 1)
          rw [if_neg hrest]
          show d :: (retryLoop rest (d * 2)).2 = d :: geomSleeps (d * 2) k
          rw [hk]
        · have hlen : 0 < rest.length := List.length_pos.mpr hrest
          rcases hb with h | h
          · rw [h]
            exact Nat.succ_lt_succ hlen
          · exact Nat.succ_lt_succ h

/-- C7 (counterexample). Three consecutive non-positive-price attempts are
transient failures, yet the exchanger retry loop records no sleep at all:
the claimed wait-and-double schedule [RETRY_DELAY, 2 * RETRY_DELAY] does
not occur. -/
theorem retry_no_wait_counterexample :
    fetchPrice (fun _ => Attempt.price (-1)) = (none, []) ∧
    (fetchPrice (fun _ => Attempt.price (-1))).2 ≠ [RETRY_DELAY, RETRY_DELAY * 2] := by
  have h : fetchPrice (fun _ => Attempt.price (-1)) = (none, []) := by
    show retryLoop [Attempt.price (-1), Attempt.price (-1), Attempt.price (-1)] RETRY_DELAY
      = (none, [])
    simp only [retryLoop]
    norm_num
  refine ⟨h, ?_⟩
  rw [h]
  simp

/-- C7 (amended). The exchanger quote fetch consults at most MAX_RETRIES
(3) attempt outcomes; the delays it actually sleeps always form the
doubling schedule RETRY_DELAY, 2·RETRY_DELAY, ... (slept on empty results
and exceptions before the final attempt), with fewer sleeps than attempts;
a non-positive price retries immediately with no sleep and no doubling;
fetch_with_retry aborts immediately on a short download; and when every
attempt fails the code is recorded in fetch_failed, excluded from the rate
set, and the run continues over the remaining currencies. -/
theorem retry_policy_amended :
    (∀ f g : ℕ → Attempt, (∀ i, i < MAX_RETRIES → f i = g i) → fetchPrice f = fetchPrice g) ∧
    (∀ f : ℕ → Attempt, ∃ k, k < MAX_RETRIES ∧ (fetchPrice f).2 = geomSleeps RETRY_DELAY k) ∧
    (∀ (rest : List Attempt) (d p : ℚ), p ≤ 0 →
      retryLoop (Attempt.price p :: rest) d = retryLoop rest d) ∧
    (∀ (rest : List QuoteAttempt) (d : ℚ),
      fetch_with_retry (QuoteAttempt.fewRows :: rest) d = (none, [])) ∧
    (∀ (f : String → ℕ → Attempt) (ecb : List (String × ℚ)) (e : String × String × Bool),
      e ∈ EXCHANGER_PAIRS → e.1 ≠ "USD" → (fetchPrice (f e.1)).1 = none →
      e.1 ∈ (fetch_exchanger_rates f ecb).2.fetch_failed ∧
      getRate (fetch_exchanger_rates f ecb).1 e.1 = none) := by
  refine ⟨?_, ?_, ?_, ?_, ?_⟩
  · intro f g h
    have h0 := h 0 (by norm_num [MAX_RETRIES])
    have h1 := h 1 (by norm_num [MAX_RETRIES])
    have h2 := h 2 (by norm_num [MAX_RETRIES])
    show retryLoop [f 0, f 1, f 2] RETRY_DELAY = retryLoop [g 0, g 1, g 2] RETRY_DELAY
    rw [h0, h1, h2]
  · intro f
    obtain ⟨k, hk, hb⟩ := retryLoop_sleeps ((List.range MAX_RETRIES).map f) RETRY_DELAY
    refine ⟨k, ?_, hk⟩
    rcases hb with h | h
    · rw [h]
      norm_num [MAX_RETRIES]
    · calc k < ((List.range MAX_RETRIES).map f).length := h
        _ = MAX_RETRIES := by simp
  · intro rest d p hp
    show (if 0 < p then ((some p, []) : Option ℚ × List ℚ) else retryLoop rest d)
      = retryLoop rest d
    rw [if_neg (not_lt.mpr hp)]
  · intro rest d
    rfl
  · intro f ecb e he husd hfp
    constructor
    · rw [(fetch_spec f ecb).2.2]
      exact List.mem_filterMap.mpr ⟨e, he, failEntry_of_fail f e husd hfp⟩
    · rw [fetch_rates_getRate f ecb e he husd, acceptEntry_of_fail f e husd hfp]
      rfl

theorem retry_policy_amended_witness :
    (("EUR" : String) ≠ "USD") ∧
    ("EUR" ∈ (fetch_exchanger_rates (fun _ _ => Attempt.exc) []).2.fetch_failed ∧
     getRate (fetch_exchanger_rates (fun _ _ => Attempt.exc) []).1 "EUR" = none) :=
  ⟨by decide,
   retry_policy_amended.2.2.2.2 (fun _ _ => Attempt.exc) [] ("EUR", "EURUSD=X", true)
     (by decide) (by decide) rfl⟩

/-- C8 (counterexample). For a scraped EUR rate of 0.92 against a
reference of 0.80 the deviation is exactly 15.0, but no acquisition-time
critical observation is logged: the acquisition critical branch requires a
deviation strictly greater than 15. -/
theorem deviation_fifteen_counterexample :
    deviation (92 / 100) (4 / 5) = 15 ∧
    "EUR" ∉ acqCriticalLogged [("USD", 1), ("EUR", 92 / 100)] [("USD", 1), ("EUR", 4 / 5)] := by
  constructor
  · norm_num [deviation, qabs]
  · simp [acqCriticalLogged, acqCross, getRate]
    norm_num [deviation, qabs, roundTo, round_eq]
    simp

/-- C8 (amended). For a scraped EUR rate of 0.92 against a reference of
0.80: the deviation is exactly 15.0; it is recorded in the acquisition
cross_check_deviations (15 > 2) but no acquisition critical observation is
logged, because the acquisition critical branch requires a deviation
strictly greater than 15; the audit-time cross-check outcome is CRITICAL
(15 > 10). -/
theorem deviation_fifteen_amended :
    deviation (92 / 100) (4 / 5) = 15 ∧
    acqDeviations [("USD", 1), ("EUR", 92 / 100)] [("USD", 1), ("EUR", 4 / 5)]
      = [("EUR", 92 / 100, 4 / 5, 15)] ∧
    acqCriticalLogged [("USD", 1), ("EUR", 92 / 100)] [("USD", 1), ("EUR", 4 / 5)] = [] ∧
    findCheck (run_audit (some ⟨some 1, [("USD", 1), ("EUR", 92 / 100)], none⟩)
        [("USD", 1), ("EUR", 4 / 5)]).checks "ecb_cross_check" = some Status.CRITICAL := by
  have hdev : deviation (92 / 100) (4 / 5) = 15 := by norm_num [deviation, qabs]
  have hUSD : acqCross [("USD", (1 : ℚ)), ("EUR", 4 / 5)] ("USD", (1 : ℚ)) = none := by
    simp [acqCross]
  have hEUR : acqCross [("USD", (1 : ℚ)), ("EUR", 4 / 5)] ("EUR", (92 / 100 : ℚ))
      = some (("EUR", 92 / 100, 4 / 5, 15), false) := by
    simp [acqCross, getRate]
    norm_num [deviation, qabs, roundTo, round_eq]
  refine ⟨hdev, ?_, ?_, ?_⟩
  · simp [acqDeviations, List.filterMap_cons, hUSD, hEUR]
  · simp [acqCriticalLogged, List.filterMap_cons, hUSD, hEUR]
  · rw [findCheck_ecb_cross ⟨some 1, [("USD", 1), ("EUR", 92 / 100)], none⟩
        [("USD", 1), ("EUR", 4 / 5)] (by simp)]
    have hcdUSD : crossDev [("USD", (1 : ℚ)), ("EUR", 4 / 5)] "USD" (1 : ℚ) = none := by
      simp [crossDev]
    have hcdEUR : crossDev [("USD", (1 : ℚ)), ("EUR", 4 / 5)] "EUR" (92 / 100 : ℚ)
        = some 15 := by
      simp [crossDev, getRate]
      norm_num [deviation, qabs]
    have hce : crossErrors [("USD", 1), ("EUR", 92 / 100)] [("USD", 1), ("EUR", 4 / 5)]
        = ["EUR"] := by
      simp [crossErrors, List.filterMap_cons, hcdUSD, hcdEUR, CRITICAL_DEVIATION_PCT]
      norm_num
    simp [ecbStatus, hce]

end FPG
